import Mathlib

/-!
Verification development for the Lux plugin package and registry manager
(Go package `config`).  The definitions below are shallow embeddings of the
source functions in `loader.go`, `plugin_manager.go` and `plugins.go`;
theorems settle the specification claims about them.

Conventions of the embedding:
* Go byte slices are `List Nat` (each element `< 256`).
* Go machine words are `Nat` reduced modulo `2 ^ 32` where overflow matters.
* The filesystem effects of `PluginPackageManager` are modelled by an
  explicit state (`St`): package version directories, `current/` symlinks
  keyed by VMID, `latest` symlinks, the on-disk registry file, and the
  in-memory registry.  Filesystem primitives (mkdir, write, symlink,
  remove) are taken to succeed; errors produced by the functions
  themselves (validation, missing manifest, registry parse failure,
  cancellation / read / write failures of the copy loop, the Go panic in
  `MigrateFromLegacy`) are modelled explicitly.
-/

namespace LuxConfig

/-! ### Bytes and strings -/

/-- UTF-8 encoding of a single character, as Go produces for `[]byte(s)`. -/
def utf8Bytes (c : Char) : List Nat :=
  let n := c.toNat
  if n < 128 then [n]
  else if n < 2048 then
    [192 ||| (n >>> 6), 128 ||| (n &&& 63)]
  else if n < 65536 then
    [224 ||| (n >>> 12), 128 ||| ((n >>> 6) &&& 63), 128 ||| (n &&& 63)]
  else
    [240 ||| (n >>> 18), 128 ||| ((n >>> 12) &&& 63),
     128 ||| ((n >>> 6) &&& 63), 128 ||| (n &&& 63)]

/-- Byte representation of a Go string, `[]byte(s)`. -/
def strBytes (s : String) : List Nat :=
  s.data.flatMap utf8Bytes

/-! ### SHA-256 (crypto/sha256), over byte lists -/

/-- Truncation to a 32-bit word. -/
def w32 (n : Nat) : Nat := n % 4294967296

/-- Right rotation of a 32-bit word. -/
def rotr32 (x n : Nat) : Nat := w32 ((x >>> n) ||| (x <<< (32 - n)))

def bsig0 (x : Nat) : Nat := rotr32 x 2 ^^^ rotr32 x 13 ^^^ rotr32 x 22

def bsig1 (x : Nat) : Nat := rotr32 x 6 ^^^ rotr32 x 11 ^^^ rotr32 x 25

def ssig0 (x : Nat) : Nat := rotr32 x 7 ^^^ rotr32 x 18 ^^^ (x >>> 3)

def ssig1 (x : Nat) : Nat := rotr32 x 17 ^^^ rotr32 x 19 ^^^ (x >>> 10)

def chF (e f g : Nat) : Nat := (e &&& f) ^^^ ((e ^^^ 4294967295) &&& g)

def majF (a b c : Nat) : Nat := (a &&& b) ^^^ (a &&& c) ^^^ (b &&& c)

/-- The 64 SHA-256 round constants (decimal). -/
def sha256K : List Nat :=
  [1116352408, 1899447441, 3049323471, 3921009573, 961987163, 1508970993,
   2453635748, 2870763221, 3624381080, 310598401, 607225278, 1426881987,
   1925078388, 2162078206, 2614888103, 3248222580, 3835390401, 4022224774,
   264347078, 604807628, 770255983, 1249150122, 1555081692, 1996064986,
   2554220882, 2821834349, 2952996808, 3210313671, 3336571891, 3584528711,
   113926993, 338241895, 666307205, 773529912, 1294757372, 1396182291,
   1695183700, 1986661051, 2177026350, 2456956037, 2730485921, 2820302411,
   3259730800, 3345764771, 3516065817, 3600352804, 4094571909, 275423344,
   430227734, 506948616, 659060556, 883997877, 958139571, 1322822218,
   1537002063, 1747873779, 1955562222, 2024104815, 2227730452, 2361852424,
   2428436474, 2756734187, 3204031479, 3329325298]

/-- Big-endian byte serialisation of `n` into `w` bytes. -/
def natToBytesBE (w n : Nat) : List Nat :=
  (List.range w).map (fun i => (n >>> (8 * (w - 1 - i))) % 256)

/-- Big-endian interpretation of a byte list as a natural number. -/
def bytesToNatBE (b : List Nat) : Nat :=
  b.foldl (fun a x => a * 256 + x) 0

/-- SHA-256 message padding: `0x80`, zeros to 56 mod 64, 64-bit bit length. -/
def sha256Pad (msg : List Nat) : List Nat :=
  msg ++ [128] ++ List.replicate ((119 - msg.length % 64) % 64) 0 ++
    natToBytesBE 8 (8 * msg.length)

/-- Split a byte list into successive 64-byte blocks. -/
def chunks64 : List Nat → List (List Nat)
  | [] => []
  | x :: rest => (x :: rest).take 64 :: chunks64 ((x :: rest).drop 64)
termination_by l => l.length
decreasing_by
  simp only [List.length_drop, List.length_cons]
  omega

/-- The sixteen 32-bit words of one 64-byte block, big-endian. -/
def blockWords (block : List Nat) : List Nat :=
  (List.range 16).map (fun i => bytesToNatBE ((block.drop (4 * i)).take 4))

/-- Extend 16 message words to the 64-entry message schedule. -/
def sha256Schedule (w16 : List Nat) : List Nat :=
  (List.range 48).foldl
    (fun w _ =>
      let t := w.length
      w ++ [w32 (ssig1 (w.getD (t - 2) 0) + w.getD (t - 7) 0 +
                 ssig0 (w.getD (t - 15) 0) + w.getD (t - 16) 0)])
    w16

/-- The eight 32-bit working variables of the compression function. -/
structure H8 where
  a : Nat
  b : Nat
  c : Nat
  d : Nat
  e : Nat
  f : Nat
  g : Nat
  hh : Nat
deriving DecidableEq

/-- Initial SHA-256 hash value (decimal). -/
def sha256H0 : H8 :=
  ⟨1779033703, 3144134277, 1013904242, 2773480762,
   1359893119, 2600822924, 528734635, 1541459225⟩

/-- One round of the SHA-256 compression function. -/
def sha256Round (w k : Nat) (s : H8) : H8 :=
  let t1 := w32 (s.hh + bsig1 s.e + chF s.e s.f s.g + k + w)
  let t2 := w32 (bsig0 s.a + majF s.a s.b s.c)
  ⟨w32 (t1 + t2), s.a, s.b, s.c, w32 (s.d + t1), s.e, s.f, s.g⟩

/-- Process one 64-byte block. -/
def sha256Compress (hs : H8) (block : List Nat) : H8 :=
  let w := sha256Schedule (blockWords block)
  let r := (List.range 64).foldl
    (fun s t => sha256Round (w.getD t 0) (sha256K.getD t 0) s) hs
  ⟨w32 (hs.a + r.a), w32 (hs.b + r.b), w32 (hs.c + r.c), w32 (hs.d + r.d),
   w32 (hs.e + r.e), w32 (hs.f + r.f), w32 (hs.g + r.g), w32 (hs.hh + r.hh)⟩

/-- SHA-256 of a byte list, producing the 32 digest bytes. -/
def sha256 (msg : List Nat) : List Nat :=
  let r := (chunks64 (sha256Pad msg)).foldl sha256Compress sha256H0
  natToBytesBE 4 r.a ++ natToBytesBE 4 r.b ++ natToBytesBE 4 r.c ++
  natToBytesBE 4 r.d ++ natToBytesBE 4 r.e ++ natToBytesBE 4 r.f ++
  natToBytesBE 4 r.g ++ natToBytesBE 4 r.hh

/-! ### Base-58 check encoding (btcsuite/btcutil/base58) -/

/-- The base-58 alphabet. -/
def b58Alphabet : List Char :=
  "123456789ABCDEFGHJKLMNPQRSTUVWXYZabcdefghijkmnopqrstuvwxyz".data

/-- Little-endian base-58 digits of a natural number. -/
def b58DigitsLE (n : Nat) : List Char :=
  if hn : n = 0 then []
  else b58Alphabet.getD (n % 58) '1' :: b58DigitsLE (n / 58)
termination_by n
decreasing_by exact Nat.div_lt_self (Nat.pos_of_ne_zero hn) (by omega)

/-- `base58.Encode`: big-number conversion plus one leading `1` per
leading zero byte. -/
def base58Encode (b : List Nat) : String :=
  String.mk (List.replicate (b.takeWhile (· = 0)).length '1' ++
    (b58DigitsLE (bytesToNatBE b)).reverse)

/-- `base58.CheckEncode`: version byte, payload, then the first four bytes
of the double SHA-256 of version-plus-payload as checksum. -/
def base58CheckEncode (input : List Nat) (version : Nat) : String :=
  let b := version :: input
  base58Encode (b ++ (sha256 (sha256 b)).take 4)

/-! ### VMID (loader.go) -/

/-- The fixed 32-byte buffer: `make([]byte, 32)` followed by `copy`, i.e.
the first 32 bytes of the name, zero-padded on the right. -/
def pad32 (bs : List Nat) : List Nat :=
  bs.take 32 ++ List.replicate (32 - bs.length) 0

/-- `VMID`: base58check(sha256(pad32(vmName))) with version byte 0. -/
def VMID (vmName : String) : String :=
  base58CheckEncode (sha256 (pad32 (strBytes vmName))) 0

/-! ### Association lists standing in for Go maps -/

/-- Lookup in an association list (Go map read). -/
def lookupA {α β : Type} [DecidableEq α] : List (α × β) → α → Option β
  | [], _ => none
  | (k, v) :: t, k0 => if k = k0 then some v else lookupA t k0

/-- Update / insert in an association list (Go map write). -/
def setA {α β : Type} [DecidableEq α] : List (α × β) → α → β → List (α × β)
  | [], k0, v0 => [(k0, v0)]
  | (k, v) :: t, k0, v0 =>
    if k = k0 then (k0, v0) :: t else (k, v) :: setA t k0 v0

/-- Remove a key from an association list (Go `delete`, `os.Remove`). -/
def eraseA {α β : Type} [DecidableEq α] : List (α × β) → α → List (α × β)
  | [], _ => []
  | (k, v) :: t, k0 => if k = k0 then eraseA t k0 else (k, v) :: eraseA t k0

/-! ### The plugin package manager state (plugin_manager.go) -/

/-- `PluginManifest`, restricted to the fields the claims are about.
`InstalledAt` and `Size` (wall-clock time and source file size) and the
optional `VMName`, `Aliases`, `Description`, `Repository` metadata play no
role in any claim and are omitted from the model. -/
structure Manifest where
  org : String
  name : String
  version : String
  vmid : String
  binary : String
deriving DecidableEq

/-- `PluginRegistry` (without the `UpdatedAt` wall-clock stamp). -/
structure PluginRegistry where
  plugins : List (String × List String)
  active : List (String × String)
deriving DecidableEq

/-- A file inside a package version directory: `Install` copies the source
binary, `Link` symlinks the absolute source path. -/
inductive BinObj
  | copied (src : String)
  | linked (target : String)
deriving DecidableEq

/-- The target of a `current/<vmid>` symlink: either the binary path
inside a package version directory (`Install` / `Activate`), or directly
the absolute source binary (`Link`). -/
inductive CurTarget
  | pkgBinary (org name version file : String)
  | direct (path : String)
deriving DecidableEq

/-- A package version directory: its files and its `manifest.json`. -/
structure PkgDir where
  files : List (String × BinObj)
  manifest : Option Manifest
deriving DecidableEq

/-- The on-disk `registry.json`: absent, present but unparsable, or
present with parsed contents. -/
inductive RegFile
  | absent
  | malformed
  | stored (r : PluginRegistry)
deriving DecidableEq

/-- The manager's state: the package store, the `current/` directory, the
per-package `latest` symlinks, the registry file, and the in-memory
registry held by the manager instance. -/
structure St where
  pkgs : List ((String × String × String) × PkgDir)
  current : List (String × CurTarget)
  latest : List ((String × String) × String)
  regFile : RegFile
  reg : PluginRegistry
deriving DecidableEq

/-- Errors surfaced by the modelled operations. -/
inductive Err
  | validationFields
  | validationVMID
  | manifestLoad
  | parseRegistry
  | activateFailed
deriving DecidableEq

/-- The state of a fresh store: no packages, no symlinks, no registry
file, empty in-memory registry. -/
def st0 : St := ⟨[], [], [], RegFile.absent, ⟨[], []⟩⟩

/-- `fmt.Sprintf("%s/%s", org, name)`: the registry key of a package. -/
def pkgKey (org name : String) : String := org ++ "/" ++ name

/-- `fmt.Sprintf("%s/%s@%s", org, name, version)`: an active reference. -/
def refStr (org name version : String) : String :=
  org ++ "/" ++ name ++ "@" ++ version

/-- `contains` from plugin_manager.go. -/
def containsStr : List String → String → Bool
  | [], _ => false
  | s :: t, item => if s = item then true else containsStr t item

/-- `removeString` from plugin_manager.go: keep every element different
from `item`, preserving order. -/
def removeString (slice : List String) (item : String) : List String :=
  slice.filter (fun s => decide (s ≠ item))

/-- `loadRegistry`: a missing file yields the empty registry, an existing
but unparsable file is a hard error, a parsable file is returned. -/
def loadRegistry (f : RegFile) : Except Err PluginRegistry :=
  match f with
  | RegFile.absent => Except.ok ⟨[], []⟩
  | RegFile.malformed => Except.error Err.parseRegistry
  | RegFile.stored r => Except.ok r

/-- `saveRegistry`: overwrite `registry.json` with the in-memory registry
(the `UpdatedAt` stamp is outside the model). -/
def saveRegistry (s : St) : St := { s with regFile := RegFile.stored s.reg }

/-- `GetManifest`: read and parse `manifest.json` of one version. -/
def getManifest (s : St) (org name version : String) : Option Manifest :=
  (lookupA s.pkgs (org, name, version)).bind (fun d => d.manifest)

/-- The registry update shared by `Install` and `Link`: append the
version to the package's list unless already present. -/
def recordVersion (reg : PluginRegistry) (key version : String) :
    PluginRegistry :=
  let versions := (lookupA reg.plugins key).getD []
  if containsStr versions version then reg
  else { reg with plugins := setA reg.plugins key (versions ++ [version]) }

/-- `Activate`: load the manifest (error if missing), replace the
`current/<vmid>` symlink with one pointing at the version's binary, bind
the identifier in the registry, and save. -/
def Activate (s : St) (org name version : String) : St × Option Err :=
  match getManifest s org name version with
  | none => (s, some Err.manifestLoad)
  | some m =>
    let binaryName := if m.binary = "" then name else m.binary
    let s1 := { s with
      current := setA s.current m.vmid
        (CurTarget.pkgBinary org name version binaryName),
      reg := { s.reg with
        active := setA s.reg.active m.vmid (refStr org name version) } }
    (saveRegistry s1, none)

/-- `Install`: validate, create the version directory, copy the binary
under the manifest's binary name (package name if unspecified), write the
manifest, record the version, activate, update `latest`, save. -/
def Install (s : St) (m : Manifest) (binaryPath : String) : St × Option Err :=
  if m.org = "" ∨ m.name = "" ∨ m.version = "" then
    (s, some Err.validationFields)
  else if m.vmid = "" then (s, some Err.validationVMID)
  else
    let dir := (lookupA s.pkgs (m.org, m.name, m.version)).getD ⟨[], none⟩
    let binaryName := if m.binary = "" then m.name else m.binary
    let dir1 : PkgDir :=
      ⟨setA dir.files binaryName (BinObj.copied binaryPath), some m⟩
    let s1 := { s with
      pkgs := setA s.pkgs (m.org, m.name, m.version) dir1 }
    let s2 := { s1 with reg := recordVersion s1.reg (pkgKey m.org m.name) m.version }
    match Activate s2 m.org m.name m.version with
    | (s3, some _) => (s3, some Err.activateFailed)
    | (s3, none) =>
      let s4 := { s3 with latest := setA s3.latest (m.org, m.name) m.version }
      (saveRegistry s4, none)

/-- `Link`: same validation and manifest writing as `Install`, but the
package file and the `current/<vmid>` symlink both point at the absolute
source path instead of a copy.  `filepath.Abs` is modelled as the
identity (absolute inputs) and the source `os.Stat` as succeeding. -/
def Link (s : St) (m : Manifest) (binaryPath : String) : St × Option Err :=
  if m.org = "" ∨ m.name = "" ∨ m.version = "" then
    (s, some Err.validationFields)
  else if m.vmid = "" then (s, some Err.validationVMID)
  else
    let absPath := binaryPath
    let dir := (lookupA s.pkgs (m.org, m.name, m.version)).getD ⟨[], none⟩
    let binaryName := if m.binary = "" then m.name else m.binary
    let dir1 : PkgDir :=
      ⟨setA dir.files binaryName (BinObj.linked absPath), some m⟩
    let s1 := { s with
      pkgs := setA s.pkgs (m.org, m.name, m.version) dir1 }
    let s2 := { s1 with reg := recordVersion s1.reg (pkgKey m.org m.name) m.version }
    let s3 := { s2 with
      current := setA s2.current m.vmid (CurTarget.direct absPath),
      reg := { s2.reg with
        active := setA s2.reg.active m.vmid (refStr m.org m.name m.version) } }
    let s4 := { s3 with latest := setA s3.latest (m.org, m.name) m.version }
    (saveRegistry s4, none)

/-- `Uninstall`: if the version's manifest loads and carries a non-empty
identifier, remove that identifier's `current` symlink and its active
binding (unconditionally); remove the version directory; drop the version
from the package's list, deleting the key when the list empties; save. -/
def Uninstall (s : St) (org name version : String) : St × Option Err :=
  let s1 :=
    match getManifest s org name version with
    | some m =>
      if m.vmid = "" then s
      else { s with
        current := eraseA s.current m.vmid,
        reg := { s.reg with active := eraseA s.reg.active m.vmid } }
    | none => s
  let s2 := { s1 with pkgs := eraseA s1.pkgs (org, name, version) }
  let versions := (lookupA s2.reg.plugins (pkgKey org name)).getD []
  let versions1 := removeString versions version
  let reg1 :=
    if versions1.length = 0 then
      { s2.reg with plugins := eraseA s2.reg.plugins (pkgKey org name) }
    else { s2.reg with plugins := setA s2.reg.plugins (pkgKey org name) versions1 }
  (saveRegistry { s2 with reg := reg1 }, none)

/-- States reachable from the fresh store by completed `Install`, `Link`,
`Activate` and `Uninstall` calls (the post-state is kept whether or not
the call reported an error). -/
inductive Reach : St → Prop
  | init : Reach st0
  | install {s} (m : Manifest) (bp : String) :
      Reach s → Reach (Install s m bp).1
  | link {s} (m : Manifest) (bp : String) :
      Reach s → Reach (Link s m bp).1
  | activate {s} (org name version : String) :
      Reach s → Reach (Activate s org name version).1
  | uninstall {s} (org name version : String) :
      Reach s → Reach (Uninstall s org name version).1

/-! ### The activation invariant of the specification -/

/-- The binary filename a manifest designates: its `Binary` field, or the
package name when unspecified. -/
def binaryNameOf (m : Manifest) : String :=
  if m.binary = "" then m.name else m.binary

/-- The `current/<i>` symlink exists and resolves to the binary of
version `(org, name, version)`: either it points at a file that exists
inside that version's package directory, or (for linked packages) it
points directly at the source path that the version's binary file links
to. -/
def resolvesToVersionBinary (s : St) (i org name version : String) : Prop :=
  match lookupA s.current i with
  | some (CurTarget.pkgBinary o1 n1 v1 f) =>
    o1 = org ∧ n1 = name ∧ v1 = version ∧
    ∃ d, lookupA s.pkgs (org, name, version) = some d ∧
      (lookupA d.files f).isSome
  | some (CurTarget.direct p) =>
    ∃ d m, lookupA s.pkgs (org, name, version) = some d ∧
      d.manifest = some m ∧
      lookupA d.files (binaryNameOf m) = some (BinObj.linked p)
  | none => False

/-- The specification's state invariant: an identifier appears in the
active mapping if and only if a `current/<identifier>` symlink exists and
resolves to the binary of the version named by that mapping entry. -/
def activeSymlinkInvariant (s : St) : Prop :=
  ∀ i,
    (∀ r, lookupA s.reg.active i = some r →
      ∃ org name version, r = refStr org name version ∧
        resolvesToVersionBinary s i org name version) ∧
    ((lookupA s.current i).isSome → (lookupA s.reg.active i).isSome)

/-! ### The chunked copy of DefaultPluginManager.Install (plugins.go) -/

/-- One iteration of the copy loop, as seen by the code: the context is
observed cancelled at the top of the loop, or a read yields a chunk whose
write succeeds, or a read yields a chunk whose write fails, or the read
itself fails with a non-EOF error.  An exhausted list is `io.EOF`. -/
inductive CopyEv
  | cancel
  | chunk (bytes : List Nat)
  | chunkWriteFail (bytes : List Nat)
  | readFail
deriving DecidableEq

/-- Errors of the copy paths. -/
inductive CopyErr
  | ctxCanceled
  | writeFailed
  | readFailed
deriving DecidableEq

/-- The copy loop of `DefaultPluginManager.Install`.  The first component
is the destination file after the call: `none` means it was removed
(`os.Remove(destPath)`), `some c` that it exists with content `c`. -/
def copyChunks : List CopyEv → Option (List Nat) →
    Option (List Nat) × Option CopyErr
  | [], dest => (dest, none)
  | CopyEv.cancel :: _, _ => (none, some CopyErr.ctxCanceled)
  | CopyEv.chunk b :: rest, dest => copyChunks rest (some (dest.getD [] ++ b))
  | CopyEv.chunkWriteFail _ :: _, _ => (none, some CopyErr.writeFailed)
  | CopyEv.readFail :: _, _ => (none, some CopyErr.readFailed)

/-- The copy phase of `DefaultPluginManager.Install`: the destination is
created empty (`O_CREATE|O_TRUNC`) and the loop runs over the source. -/
def defaultInstallCopy (events : List CopyEv) :
    Option (List Nat) × Option CopyErr :=
  copyChunks events (some [])

/-- Outcome of the single `f.Write(data)` inside `os.WriteFile`: all
bytes written, or failure after `k` bytes. -/
inductive WriteRes
  | full
  | shortWrite (k : Nat)
deriving DecidableEq

/-- `copyFile` from plugin_manager.go: `os.ReadFile` then `os.WriteFile`.
`src = none` models an unreadable source (destination untouched, read
error returned).  On a write failure the code returns the error without
removing the partially written destination. -/
def copyFileM (src : Option (List Nat)) (w : WriteRes)
    (prevDest : Option (List Nat)) : Option (List Nat) × Option CopyErr :=
  match src with
  | none => (prevDest, some CopyErr.readFailed)
  | some data =>
    match w with
    | WriteRes.full => (some data, none)
    | WriteRes.shortWrite k => (some (data.take k), some CopyErr.writeFailed)

/-! ### MigrateFromLegacy (plugin_manager.go) -/

/-- An entry of the legacy plugin directory: a subdirectory, a plain file
(for which `os.Readlink` fails), or a symlink with its target. -/
inductive LegacyEntry
  | dir (name : String)
  | file (name : String)
  | symlink (name target : String)
deriving DecidableEq

/-- Go string slicing `s[:n]`: defined when `n` is at most the byte
length of `s`, a panic (`none`) otherwise.  The sliced value is returned
as the first `n` characters, which agrees with the byte prefix for the
ASCII names this code slices. -/
def goSliceTo (s : String) (n : Nat) : Option String :=
  if n ≤ (strBytes s).length then some (String.mk (s.data.take n)) else none

/-- `filepath.Base`, for the slash-separated paths the migrator sees. -/
def baseName (p : String) : String :=
  match (p.splitOn "/").reverse with
  | [] => p
  | x :: _ => x

/-- The per-entry loop of `MigrateFromLegacy`: directories and
non-symlinks are skipped; for a symlink a synthetic manifest is built —
slicing the first 8 bytes of the entry name, which panics (`none`) when
the name is shorter — and installed, ignoring installation errors. -/
def migrateEntries (s : St) : List LegacyEntry → Option St
  | [] => some s
  | LegacyEntry.dir _ :: rest => migrateEntries s rest
  | LegacyEntry.file _ :: rest => migrateEntries s rest
  | LegacyEntry.symlink vmid target :: rest =>
    match goSliceTo vmid 8 with
    | none => none
    | some pre =>
      let m : Manifest :=
        ⟨"legacy", pre ++ "...", "v0.0.0", vmid, baseName target⟩
      migrateEntries (Install s m target).1 rest

/-- `MigrateFromLegacy`: a missing legacy directory (`none`) is "nothing
to migrate"; otherwise the entries are processed in order.  A `none`
result models a Go panic escaping the call. -/
def MigrateFromLegacy (s : St) (legacy : Option (List LegacyEntry)) :
    Option (St × Option Err) :=
  match legacy with
  | none => some (s, none)
  | some entries => (migrateEntries s entries).map (fun s1 => (s1, none))

/-- The identifier sets of the active mapping and of the `current/`
directory agree: an identifier is bound in the registry exactly when its
`current/<identifier>` symlink exists. -/
def keysAgree (s : St) : Prop :=
  ∀ i, (lookupA s.reg.active i).isSome ↔ (lookupA s.current i).isSome

/-- Every version list recorded in the registry is duplicate-free. -/
def pluginsNodup (s : St) : Prop :=
  ∀ k vs, lookupA s.reg.plugins k = some vs → vs.Nodup

/-! ### Concrete runs used by counterexamples and witnesses -/

/-- Two versions of one package installed under the same identifier
`"X"`; the second install rebinds `"X"` to `v2`. -/
def twoVersionSt : St :=
  (Install (Install st0 ⟨"o", "n", "v1", "X", "b"⟩ "src1").1
    ⟨"o", "n", "v2", "X", "b"⟩ "src2").1

/-- `twoVersionSt` after uninstalling the non-active version `v1`. -/
def afterUninstallV1 : St := (Uninstall twoVersionSt "o" "n" "v1").1

/-- The same version `v1` installed twice with different identifiers
(`"X"` then `"Y"`), then uninstalled: the manifest on disk names `"Y"`,
so only `"Y"` is cleaned up and `"X"` is left bound to a version whose
directory is gone. -/
def staleBindingSt : St :=
  (Uninstall
    (Install (Install st0 ⟨"o", "n", "v1", "X", "b"⟩ "src1").1
      ⟨"o", "n", "v1", "Y", "b"⟩ "src2").1
    "o" "n" "v1").1

/-- One version installed from the fresh store. -/
def oneInstallSt : St := (Install st0 ⟨"o", "n", "v1", "X", "b"⟩ "src1").1

/-- `oneInstallSt` after an explicit `Activate` of the installed version. -/
def oneActivatedSt : St := (Activate oneInstallSt "o" "n" "v1").1

/-! ### Helper lemmas about the map operations -/

theorem lookupA_setA {α β : Type} [DecidableEq α] (l : List (α × β))
    (k k0 : α) (v : β) :
    lookupA (setA l k v) k0 = if k = k0 then some v else lookupA l k0 := by
  induction l with
  | nil =>
    simp only [setA, lookupA]
  | cons p t ih =>
    obtain ⟨pk, pv⟩ := p
    by_cases hpk : pk = k
    · subst hpk
      simp only [setA, if_pos rfl, lookupA]
      by_cases hk0 : pk = k0 <;> simp [hk0]
    · simp only [setA, if_neg hpk, lookupA]
      by_cases hk0 : pk = k0
      · subst hk0
        have hkk : ¬ k = pk := fun h => hpk h.symm
        simp [hkk]
      · simp [hk0, ih]

theorem lookupA_eraseA {α β : Type} [DecidableEq α] (l : List (α × β))
    (k k0 : α) :
    lookupA (eraseA l k) k0 = if k = k0 then none else lookupA l k0 := by
  induction l with
  | nil =>
    simp only [eraseA, lookupA]
    split <;> rfl
  | cons p t ih =>
    obtain ⟨pk, pv⟩ := p
    by_cases hpk : pk = k
    · subst hpk
      simp only [eraseA, if_true]
      rw [ih]
      by_cases hk0 : pk = k0
      · simp [hk0]
      · simp [lookupA, hk0]
    · simp only [eraseA, if_neg hpk, lookupA]
      by_cases hk0 : pk = k0
      · subst hk0
        have hkk : ¬ k = pk := fun h => hpk h.symm
        simp [hkk]
      · simp [hk0, ih]

theorem setA_setA_self {α β : Type} [DecidableEq α] (l : List (α × β))
    (k : α) (v v1 : β) :
    setA (setA l k v) k v1 = setA l k v1 := by
  induction l with
  | nil => simp [setA]
  | cons p t ih =>
    obtain ⟨pk, pv⟩ := p
    by_cases hpk : pk = k
    · subst hpk
      simp [setA]
    · simp [setA, hpk, ih]

theorem containsStr_iff (l : List String) (x : String) :
    containsStr l x = true ↔ x ∈ l := by
  induction l with
  | nil => simp [containsStr]
  | cons a t ih =>
    simp only [containsStr]
    by_cases h : a = x
    · subst h
      simp
    · have h1 : ¬ x = a := fun hx => h hx.symm
      simp [h, h1, ih]

theorem mem_removeString (l : List String) (x y : String) :
    y ∈ removeString l x ↔ y ∈ l ∧ y ≠ x := by
  simp [removeString, List.mem_filter]

/-! ### Evaluation lemmas for the manager operations -/

theorem Activate_eq_of_manifest (s : St) (org name version : String)
    (m : Manifest) (hm : getManifest s org name version = some m) :
    Activate s org name version =
      (saveRegistry { s with
        current := setA s.current m.vmid
          (CurTarget.pkgBinary org name version
            (if m.binary = "" then name else m.binary)),
        reg := { s.reg with
          active := setA s.reg.active m.vmid (refStr org name version) } },
       none) := by
  unfold Activate
  rw [hm]

theorem Install_eq (s : St) (m : Manifest) (bp : String)
    (hf : ¬ (m.org = "" ∨ m.name = "" ∨ m.version = "")) (hv : ¬ m.vmid = "") :
    Install s m bp =
      ({ pkgs := setA s.pkgs (m.org, m.name, m.version)
           ⟨setA ((lookupA s.pkgs (m.org, m.name, m.version)).getD
               ⟨[], none⟩).files (binaryNameOf m) (BinObj.copied bp),
             some m⟩,
         current := setA s.current m.vmid
           (CurTarget.pkgBinary m.org m.name m.version (binaryNameOf m)),
         latest := setA s.latest (m.org, m.name) m.version,
         regFile := RegFile.stored
           { plugins :=
               (recordVersion s.reg (pkgKey m.org m.name) m.version).plugins,
             active := setA s.reg.active m.vmid
               (refStr m.org m.name m.version) },
         reg :=
           { plugins :=
               (recordVersion s.reg (pkgKey m.org m.name) m.version).plugins,
             active := setA s.reg.active m.vmid
               (refStr m.org m.name m.version) } },
       none) := by
  unfold Install
  rw [if_neg hf, if_neg hv]
  dsimp only
  have hm : getManifest
      { s with
        pkgs := setA s.pkgs (m.org, m.name, m.version)
          ⟨setA ((lookupA s.pkgs (m.org, m.name, m.version)).getD
              ⟨[], none⟩).files
            (if m.binary = "" then m.name else m.binary)
            (BinObj.copied bp), some m⟩,
        reg := recordVersion s.reg (pkgKey m.org m.name) m.version }
      m.org m.name m.version = some m := by
    simp [getManifest, lookupA_setA]
  rw [Activate_eq_of_manifest _ _ _ _ _ hm]
  have hact : (recordVersion s.reg (pkgKey m.org m.name) m.version).active =
      s.reg.active := by
    unfold recordVersion
    dsimp only
    split <;> rfl
  dsimp only [saveRegistry]
  rw [hact]
  rfl

theorem Link_eq (s : St) (m : Manifest) (bp : String)
    (hf : ¬ (m.org = "" ∨ m.name = "" ∨ m.version = "")) (hv : ¬ m.vmid = "") :
    Link s m bp =
      ({ pkgs := setA s.pkgs (m.org, m.name, m.version)
           ⟨setA ((lookupA s.pkgs (m.org, m.name, m.version)).getD
               ⟨[], none⟩).files (binaryNameOf m) (BinObj.linked bp),
             some m⟩,
         current := setA s.current m.vmid (CurTarget.direct bp),
         latest := setA s.latest (m.org, m.name) m.version,
         regFile := RegFile.stored
           { plugins :=
               (recordVersion s.reg (pkgKey m.org m.name) m.version).plugins,
             active := setA s.reg.active m.vmid
               (refStr m.org m.name m.version) },
         reg :=
           { plugins :=
               (recordVersion s.reg (pkgKey m.org m.name) m.version).plugins,
             active := setA s.reg.active m.vmid
               (refStr m.org m.name m.version) } },
       none) := by
  unfold Link
  rw [if_neg hf, if_neg hv]
  have hact : (recordVersion s.reg (pkgKey m.org m.name) m.version).active =
      s.reg.active := by
    unfold recordVersion
    dsimp only
    split <;> rfl
  dsimp only [saveRegistry]
  rw [hact]
  rfl

theorem Uninstall_eq_found (s : St) (org name version : String)
    (m : Manifest) (hm : getManifest s org name version = some m)
    (hv : ¬ m.vmid = "") :
    Uninstall s org name version =
      (let versions1 := removeString
         ((lookupA s.reg.plugins (pkgKey org name)).getD []) version
       let plugins1 :=
         if versions1.length = 0 then eraseA s.reg.plugins (pkgKey org name)
         else setA s.reg.plugins (pkgKey org name) versions1
       ({ pkgs := eraseA s.pkgs (org, name, version),
          current := eraseA s.current m.vmid,
          latest := s.latest,
          regFile := RegFile.stored ⟨plugins1, eraseA s.reg.active m.vmid⟩,
          reg := ⟨plugins1, eraseA s.reg.active m.vmid⟩ }, none)) := by
  unfold Uninstall
  rw [hm]
  dsimp only
  rw [if_neg hv]
  dsimp only [saveRegistry]
  split <;> rfl

theorem Uninstall_eq_skip (s : St) (org name version : String)
    (hm : (getManifest s org name version).elim True (fun m => m.vmid = "")) :
    Uninstall s org name version =
      (let versions1 := removeString
         ((lookupA s.reg.plugins (pkgKey org name)).getD []) version
       let plugins1 :=
         if versions1.length = 0 then eraseA s.reg.plugins (pkgKey org name)
         else setA s.reg.plugins (pkgKey org name) versions1
       ({ pkgs := eraseA s.pkgs (org, name, version),
          current := s.current,
          latest := s.latest,
          regFile := RegFile.stored ⟨plugins1, s.reg.active⟩,
          reg := ⟨plugins1, s.reg.active⟩ }, none)) := by
  unfold Uninstall
  cases hg : getManifest s org name version with
  | none =>
    dsimp only [saveRegistry]
    split <;> rfl
  | some m =>
    rw [hg] at hm
    simp only [Option.elim] at hm
    dsimp only
    rw [if_pos hm]
    dsimp only [saveRegistry]
    split <;> rfl

/-! ### Claim C1 -/

/-- Claim C1: `VMID` is a pure deterministic function of the plugin name,
computed exactly as the checksummed base-58 encoding (version byte 0) of
the SHA-256 hash of the name's bytes copied into a fixed 32-byte
zero-filled buffer, left-aligned, with bytes beyond 32 silently
discarded; consequently any two names whose first 32 bytes agree after
zero-padding receive the same identifier. -/
theorem vmid_pure_truncated_hash (a b : String)
    (hpad : pad32 (strBytes a) = pad32 (strBytes b)) :
    VMID a = base58CheckEncode (sha256 (pad32 (strBytes a))) 0 ∧
    VMID a = VMID b := by
  refine ⟨rfl, ?_⟩
  unfold VMID
  rw [hpad]

theorem vmid_pure_truncated_hash_witness :
    pad32 (strBytes "aaaaaaaaaaaaaaaaaaaaaaaaaaaaaaaaX") =
      pad32 (strBytes "aaaaaaaaaaaaaaaaaaaaaaaaaaaaaaaaY") ∧
    (VMID "aaaaaaaaaaaaaaaaaaaaaaaaaaaaaaaaX" =
      base58CheckEncode
        (sha256 (pad32 (strBytes "aaaaaaaaaaaaaaaaaaaaaaaaaaaaaaaaX"))) 0 ∧
     VMID "aaaaaaaaaaaaaaaaaaaaaaaaaaaaaaaaX" =
      VMID "aaaaaaaaaaaaaaaaaaaaaaaaaaaaaaaaY") :=
  ⟨by decide,
   vmid_pure_truncated_hash "aaaaaaaaaaaaaaaaaaaaaaaaaaaaaaaaX"
     "aaaaaaaaaaaaaaaaaaaaaaaaaaaaaaaaY" (by decide)⟩

/-! ### Claim C5 -/

/-- Claim C5: for every manifest with an empty org, name, version or
identifier, `Install` and `Link` return a validation error and the whole
state — package store, `current/` directory and registry file — is
unchanged. -/
theorem validation_errors_no_mutation (s : St) (m : Manifest) (bp : String)
    (h : m.org = "" ∨ m.name = "" ∨ m.version = "" ∨ m.vmid = "") :
    (∃ e, Install s m bp = (s, some e)) ∧
    ∃ e, Link s m bp = (s, some e) := by
  by_cases h3 : m.org = "" ∨ m.name = "" ∨ m.version = ""
  · constructor
    · exact ⟨Err.validationFields, by unfold Install; rw [if_pos h3]⟩
    · exact ⟨Err.validationFields, by unfold Link; rw [if_pos h3]⟩
  · have h4 : m.vmid = "" := by tauto
    constructor
    · exact ⟨Err.validationVMID, by unfold Install; rw [if_neg h3, if_pos h4]⟩
    · exact ⟨Err.validationVMID, by unfold Link; rw [if_neg h3, if_pos h4]⟩

theorem validation_errors_no_mutation_witness :
    (("" : String) = "" ∨ ("n" : String) = "" ∨ ("v" : String) = "" ∨
      ("X" : String) = "") ∧
    ((∃ e, Install st0 ⟨"", "n", "v", "X", "b"⟩ "p" = (st0, some e)) ∧
     ∃ e, Link st0 ⟨"", "n", "v", "X", "b"⟩ "p" = (st0, some e)) :=
  ⟨Or.inl rfl,
   validation_errors_no_mutation st0 ⟨"", "n", "v", "X", "b"⟩ "p"
     (Or.inl rfl)⟩

/-! ### Claim C7 -/

/-- Claim C7: registry loading is total over the two file states — an
absent file yields the empty registry and succeeds, an existing but
unparsable file is a hard error (no fallback to empty), and a parsable
file is returned as stored. -/
theorem load_registry_total :
    loadRegistry RegFile.absent = Except.ok ⟨[], []⟩ ∧
    loadRegistry RegFile.malformed = Except.error Err.parseRegistry ∧
    ∀ r, loadRegistry (RegFile.stored r) = Except.ok r :=
  ⟨rfl, rfl, fun _ => rfl⟩

/-! ### Claim C9 -/

/-- Claim C9 counterexample: `copyFile` in plugin_manager.go (the copy
used by `PluginPackageManager.Install`) does not clean up: a write
failure after one byte leaves the partially written destination file in
place while the error propagates. -/
theorem copyfile_partial_write_cex :
    copyFileM (some [1, 2, 3]) (WriteRes.shortWrite 1) none =
      (some [1], some CopyErr.writeFailed) := rfl

/-- Claim C9 amended: the chunked copy loop of
`DefaultPluginManager.Install` removes the destination file on every
mid-copy failure — and when cancellation fires mid-copy the cancellation
error is returned with the destination removed — but `copyFile` of
plugin_manager.go leaves the partially written destination in place when
its single write fails. -/
theorem chunked_copy_cleanup :
    (∀ evs d0 e, (copyChunks evs d0).2 = some e →
      (copyChunks evs d0).1 = none) ∧
    (∀ pre rest d0, (∀ ev ∈ pre, ∃ b, ev = CopyEv.chunk b) →
      copyChunks (pre ++ CopyEv.cancel :: rest) d0 =
        (none, some CopyErr.ctxCanceled)) ∧
    (∀ data k, copyFileM (some data) (WriteRes.shortWrite k) none =
      (some (data.take k), some CopyErr.writeFailed)) := by
  refine ⟨?_, ?_, fun _ _ => rfl⟩
  · intro evs
    induction evs with
    | nil => intro d0 e h; cases h
    | cons ev rest ih =>
      intro d0 e h
      cases ev with
      | cancel => rfl
      | chunk b => exact ih (some (d0.getD [] ++ b)) e h
      | chunkWriteFail b => rfl
      | readFail => rfl
  · intro pre
    induction pre with
    | nil => intro rest d0 _; rfl
    | cons ev pre1 ih =>
      intro rest d0 hev
      obtain ⟨b, rfl⟩ := hev ev (List.mem_cons_self ev pre1)
      exact ih rest (some (d0.getD [] ++ b))
        (fun x hx => hev x (List.mem_cons_of_mem _ hx))

theorem chunked_copy_cleanup_witness :
    ((copyChunks [CopyEv.chunk [7], CopyEv.readFail] (some [])).2 =
      some CopyErr.readFailed) ∧
    (copyChunks [CopyEv.chunk [7], CopyEv.readFail] (some [])).1 = none ∧
    copyChunks ([CopyEv.chunk [7]] ++ CopyEv.cancel :: []) (some []) =
      (none, some CopyErr.ctxCanceled) :=
  ⟨by decide,
   chunked_copy_cleanup.1 [CopyEv.chunk [7], CopyEv.readFail] (some [])
     CopyErr.readFailed (by decide),
   chunked_copy_cleanup.2.1 [CopyEv.chunk [7]] [] (some [])
     (fun ev hev => ⟨[7], by
        rw [List.mem_singleton] at hev
        exact hev⟩)⟩

/-! ### Claim C10 -/

/-- Claim C10: `MigrateFromLegacy` is not total — a legacy symlink entry
whose filename is shorter than 8 bytes makes the synthetic-manifest
construction slice out of range, a Go panic (modelled as `none`) rather
than a skip or an error return. -/
theorem migrate_short_symlink_panics :
    MigrateFromLegacy st0
      (some [LegacyEntry.symlink "abc" "/usr/local/bin/vm"]) = none ∧
    (strBytes "abc").length < 8 :=
  ⟨rfl, by decide⟩

/-! ### Claim C2 -/

/-- Claim C2: after a successful `Install` of a manifest with org `o`,
name `n`, version `v` and identifier `i`, the registry's plugins entry
for `o/n` contains `v`, the registry's active entry for `i` equals
`o/n@v`, and the `current/<i>` symlink points at the installed binary
inside `packages/o/n/v` — installing implicitly activates the new
version for that identifier. -/
theorem install_activates_and_registers (s : St) (m : Manifest) (bp : String)
    (h1 : m.org ≠ "") (h2 : m.name ≠ "") (h3 : m.version ≠ "")
    (h4 : m.vmid ≠ "") :
    (Install s m bp).2 = none ∧
    m.version ∈
      (lookupA (Install s m bp).1.reg.plugins (pkgKey m.org m.name)).getD [] ∧
    lookupA (Install s m bp).1.reg.active m.vmid =
      some (refStr m.org m.name m.version) ∧
    lookupA (Install s m bp).1.current m.vmid =
      some (CurTarget.pkgBinary m.org m.name m.version (binaryNameOf m)) ∧
    ∃ d, lookupA (Install s m bp).1.pkgs (m.org, m.name, m.version) = some d ∧
      d.manifest = some m ∧
      lookupA d.files (binaryNameOf m) = some (BinObj.copied bp) := by
  have hf : ¬ (m.org = "" ∨ m.name = "" ∨ m.version = "") := by tauto
  rw [Install_eq s m bp hf h4]
  refine ⟨rfl, ?_, ?_, ?_, ?_⟩
  · dsimp only
    unfold recordVersion
    dsimp only
    by_cases hc : containsStr
        ((lookupA s.reg.plugins (pkgKey m.org m.name)).getD []) m.version =
        true
    · rw [if_pos hc]
      exact (containsStr_iff _ _).mp hc
    · rw [if_neg hc]
      dsimp only
      simp [lookupA_setA]
  · dsimp only
    simp [lookupA_setA]
  · dsimp only
    simp [lookupA_setA]
  · refine ⟨⟨setA ((lookupA s.pkgs (m.org, m.name, m.version)).getD
        ⟨[], none⟩).files (binaryNameOf m) (BinObj.copied bp), some m⟩,
      ?_, rfl, ?_⟩
    · dsimp only
      simp [lookupA_setA]
    · simp [lookupA_setA]

theorem install_activates_and_registers_witness :
    (("luxfi" : String) ≠ "" ∧ ("evm" : String) ≠ "" ∧
     ("v1.0.0" : String) ≠ "" ∧ ("idX" : String) ≠ "") ∧
    ((Install st0 ⟨"luxfi", "evm", "v1.0.0", "idX", "evm"⟩ "srcbin").2 =
      none ∧
     "v1.0.0" ∈ (lookupA
       (Install st0 ⟨"luxfi", "evm", "v1.0.0", "idX", "evm"⟩
         "srcbin").1.reg.plugins (pkgKey "luxfi" "evm")).getD [] ∧
     lookupA (Install st0 ⟨"luxfi", "evm", "v1.0.0", "idX", "evm"⟩
         "srcbin").1.reg.active "idX" =
       some (refStr "luxfi" "evm" "v1.0.0") ∧
     lookupA (Install st0 ⟨"luxfi", "evm", "v1.0.0", "idX", "evm"⟩
         "srcbin").1.current "idX" =
       some (CurTarget.pkgBinary "luxfi" "evm" "v1.0.0"
         (binaryNameOf ⟨"luxfi", "evm", "v1.0.0", "idX", "evm"⟩)) ∧
     ∃ d, lookupA (Install st0 ⟨"luxfi", "evm", "v1.0.0", "idX", "evm"⟩
         "srcbin").1.pkgs ("luxfi", "evm", "v1.0.0") = some d ∧
       d.manifest = some ⟨"luxfi", "evm", "v1.0.0", "idX", "evm"⟩ ∧
       lookupA d.files (binaryNameOf ⟨"luxfi", "evm", "v1.0.0", "idX", "evm"⟩)
         = some (BinObj.copied "srcbin")) :=
  ⟨⟨by decide, by decide, by decide, by decide⟩,
   install_activates_and_registers st0
     ⟨"luxfi", "evm", "v1.0.0", "idX", "evm"⟩ "srcbin"
     (by decide) (by decide) (by decide) (by decide)⟩

/-! ### Claim C3 -/

/-- Claim C3 counterexample: versions `v1` and `v2` of package `o/n` are
both installed under identifier `X` and the active binding points at
`v2`; uninstalling the non-active `v1` nevertheless clears the binding
and the `current/X` symlink, because the cleanup in `Uninstall` is keyed
only on the manifest's identifier, not on which version is bound. -/
theorem uninstall_nonactive_clears_binding_cex :
    lookupA twoVersionSt.reg.active "X" = some (refStr "o" "n" "v2") ∧
    refStr "o" "n" "v2" ≠ refStr "o" "n" "v1" ∧
    (lookupA twoVersionSt.current "X").isSome = true ∧
    "v1" ∈ (lookupA twoVersionSt.reg.plugins (pkgKey "o" "n")).getD [] ∧
    (Uninstall twoVersionSt "o" "n" "v1").2 = none ∧
    lookupA (Uninstall twoVersionSt "o" "n" "v1").1.reg.active "X" = none ∧
    lookupA (Uninstall twoVersionSt "o" "n" "v1").1.current "X" = none := by
  decide

/-- Claim C3 amended: `Uninstall(org, name, v)` removes the version
directory and the version-list entry; and whenever the uninstalled
version's manifest is readable with a non-empty identifier it also
removes that identifier's `current` symlink and clears its active
binding — unconditionally, even when the binding points at a different
version of the same identifier. -/
theorem uninstall_unconditional_cleanup (s : St) (org name version : String)
    (m : Manifest) (hm : getManifest s org name version = some m)
    (hv : m.vmid ≠ "") :
    (Uninstall s org name version).2 = none ∧
    lookupA (Uninstall s org name version).1.pkgs (org, name, version) =
      none ∧
    version ∉ (lookupA (Uninstall s org name version).1.reg.plugins
      (pkgKey org name)).getD [] ∧
    lookupA (Uninstall s org name version).1.reg.active m.vmid = none ∧
    lookupA (Uninstall s org name version).1.current m.vmid = none := by
  rw [Uninstall_eq_found s org name version m hm hv]
  refine ⟨rfl, ?_, ?_, ?_, ?_⟩
  · dsimp only
    simp [lookupA_eraseA]
  · dsimp only
    by_cases hlen : (removeString
        ((lookupA s.reg.plugins (pkgKey org name)).getD []) version).length = 0
    · rw [if_pos hlen]
      simp [lookupA_eraseA]
    · rw [if_neg hlen]
      simp [lookupA_setA, mem_removeString]
  · dsimp only
    simp [lookupA_eraseA]
  · dsimp only
    simp [lookupA_eraseA]

theorem uninstall_unconditional_cleanup_witness :
    getManifest twoVersionSt "o" "n" "v1" = some ⟨"o", "n", "v1", "X", "b"⟩ ∧
    ((Uninstall twoVersionSt "o" "n" "v1").2 = none ∧
     lookupA (Uninstall twoVersionSt "o" "n" "v1").1.pkgs ("o", "n", "v1") =
       none ∧
     "v1" ∉ (lookupA (Uninstall twoVersionSt "o" "n" "v1").1.reg.plugins
       (pkgKey "o" "n")).getD [] ∧
     lookupA (Uninstall twoVersionSt "o" "n" "v1").1.reg.active "X" = none ∧
     lookupA (Uninstall twoVersionSt "o" "n" "v1").1.current "X" = none) :=
  ⟨by decide,
   uninstall_unconditional_cleanup twoVersionSt "o" "n" "v1"
     ⟨"o", "n", "v1", "X", "b"⟩ (by decide) (by decide)⟩

/-! ### Claim C4 -/

theorem keysAgree_activate (s : St) (org name version : String)
    (h : keysAgree s) : keysAgree (Activate s org name version).1 := by
  cases hm : getManifest s org name version with
  | none =>
    unfold Activate
    rw [hm]
    exact h
  | some m =>
    rw [Activate_eq_of_manifest s org name version m hm]
    intro i
    dsimp only [saveRegistry]
    rw [lookupA_setA, lookupA_setA]
    by_cases hi : m.vmid = i
    · rw [if_pos hi, if_pos hi]
      simp
    · rw [if_neg hi, if_neg hi]
      exact h i

theorem keysAgree_install (s : St) (m : Manifest) (bp : String)
    (h : keysAgree s) : keysAgree (Install s m bp).1 := by
  by_cases hf : m.org = "" ∨ m.name = "" ∨ m.version = ""
  · unfold Install
    rw [if_pos hf]
    exact h
  · by_cases hv : m.vmid = ""
    · unfold Install
      rw [if_neg hf, if_pos hv]
      exact h
    · rw [Install_eq s m bp hf hv]
      intro i
      dsimp only
      rw [lookupA_setA, lookupA_setA]
      by_cases hi : m.vmid = i
      · rw [if_pos hi, if_pos hi]
        simp
      · rw [if_neg hi, if_neg hi]
        exact h i

theorem keysAgree_link (s : St) (m : Manifest) (bp : String)
    (h : keysAgree s) : keysAgree (Link s m bp).1 := by
  by_cases hf : m.org = "" ∨ m.name = "" ∨ m.version = ""
  · unfold Link
    rw [if_pos hf]
    exact h
  · by_cases hv : m.vmid = ""
    · unfold Link
      rw [if_neg hf, if_pos hv]
      exact h
    · rw [Link_eq s m bp hf hv]
      intro i
      dsimp only
      rw [lookupA_setA, lookupA_setA]
      by_cases hi : m.vmid = i
      · rw [if_pos hi, if_pos hi]
        simp
      · rw [if_neg hi, if_neg hi]
        exact h i

theorem keysAgree_uninstall (s : St) (org name version : String)
    (h : keysAgree s) : keysAgree (Uninstall s org name version).1 := by
  cases hm : getManifest s org name version with
  | none =>
    rw [Uninstall_eq_skip s org name version (by rw [hm]; exact trivial)]
    intro i
    dsimp only
    exact h i
  | some m =>
    by_cases hv : m.vmid = ""
    · rw [Uninstall_eq_skip s org name version (by rw [hm]; exact hv)]
      intro i
      dsimp only
      exact h i
    · rw [Uninstall_eq_found s org name version m hm hv]
      intro i
      dsimp only
      rw [lookupA_eraseA, lookupA_eraseA]
      by_cases hi : m.vmid = i
      · rw [if_pos hi, if_pos hi]
        simp
      · rw [if_neg hi, if_neg hi]
        exact h i

/-- Claim C4 counterexample: from the empty store, two completed
`Install` calls for the same `(org, name, version)` under identifiers
`X` then `Y`, followed by one completed `Uninstall` of that version,
leave identifier `X` in the active mapping while its `current/X` symlink
dangles (the version directory is gone), violating the claimed
invariant. -/
theorem active_symlink_invariant_cex :
    (Install st0 ⟨"o", "n", "v1", "X", "b"⟩ "src1").2 = none ∧
    (Install (Install st0 ⟨"o", "n", "v1", "X", "b"⟩ "src1").1
      ⟨"o", "n", "v1", "Y", "b"⟩ "src2").2 = none ∧
    (Uninstall
      (Install (Install st0 ⟨"o", "n", "v1", "X", "b"⟩ "src1").1
        ⟨"o", "n", "v1", "Y", "b"⟩ "src2").1 "o" "n" "v1").2 = none ∧
    ¬ activeSymlinkInvariant staleBindingSt := by
  refine ⟨by decide, by decide, by decide, ?_⟩
  intro hInv
  obtain ⟨hbound, -⟩ := hInv "X"
  have hx : lookupA staleBindingSt.reg.active "X" =
      some (refStr "o" "n" "v1") := by decide
  obtain ⟨o1, n1, v1, -, hres⟩ := hbound _ hx
  unfold resolvesToVersionBinary at hres
  have hc : lookupA staleBindingSt.current "X" =
      some (CurTarget.pkgBinary "o" "n" "v1" "b") := by decide
  rw [hc] at hres
  dsimp only at hres
  obtain ⟨-, -, -, d, hd, -⟩ := hres
  have hp : staleBindingSt.pkgs = [] := by decide
  rw [hp] at hd
  cases hd

/-- Claim C4 amended: for every sequence of completed `Install`, `Link`,
`Activate` and `Uninstall` operations from the empty store, an
identifier appears in the registry's active mapping exactly when a
`current/<identifier>` symlink exists; the stronger claimed condition
that the symlink also resolves to the binary of the version named by the
mapping entry can fail (the symlink may dangle after an uninstall of a
version whose manifest carries a different identifier than an earlier
install of the same version recorded). -/
theorem active_current_keys_agree (s : St) (hs : Reach s) (i : String) :
    (lookupA s.reg.active i).isSome ↔ (lookupA s.current i).isSome := by
  induction hs generalizing i with
  | init => simp [st0, lookupA]
  | install m bp _ ih => exact keysAgree_install _ m bp ih i
  | link m bp _ ih => exact keysAgree_link _ m bp ih i
  | activate org name version _ ih =>
    exact keysAgree_activate _ org name version ih i
  | uninstall org name version _ ih =>
    exact keysAgree_uninstall _ org name version ih i

theorem active_current_keys_agree_witness :
    ((lookupA oneInstallSt.reg.active "X").isSome ↔
      (lookupA oneInstallSt.current "X").isSome) ∧
    ((lookupA oneInstallSt.reg.active "Z").isSome ↔
      (lookupA oneInstallSt.current "Z").isSome) :=
  ⟨active_current_keys_agree oneInstallSt
     (Reach.install ⟨"o", "n", "v1", "X", "b"⟩ "src1" Reach.init) "X",
   active_current_keys_agree oneInstallSt
     (Reach.install ⟨"o", "n", "v1", "X", "b"⟩ "src1" Reach.init) "Z"⟩

/-! ### Claim C6 -/

theorem nodup_snoc {α : Type} (l : List α) (v : α) (h1 : l.Nodup)
    (h2 : v ∉ l) : (l ++ [v]).Nodup := by
  rw [List.nodup_append]
  refine ⟨h1, List.nodup_singleton v, ?_⟩
  intro a ha hav
  rw [List.mem_singleton] at hav
  exact h2 (hav ▸ ha)

theorem nodup_recordVersion (r : PluginRegistry) (key v : String)
    (h : ∀ k vs, lookupA r.plugins k = some vs → vs.Nodup)
    (k : String) (vs : List String)
    (hl : lookupA (recordVersion r key v).plugins k = some vs) : vs.Nodup := by
  unfold recordVersion at hl
  dsimp only at hl
  by_cases hc : containsStr ((lookupA r.plugins key).getD []) v = true
  · rw [if_pos hc] at hl
    exact h k vs hl
  · rw [if_neg hc] at hl
    dsimp only at hl
    rw [lookupA_setA] at hl
    by_cases hk : key = k
    · rw [if_pos hk, Option.some.injEq] at hl
      subst hl
      have hnd : ((lookupA r.plugins key).getD []).Nodup := by
        cases hl0 : lookupA r.plugins key with
        | none => simp
        | some vs0 => simpa using h key vs0 hl0
      have hnm : v ∉ (lookupA r.plugins key).getD [] := fun hmem =>
        hc ((containsStr_iff _ _).mpr hmem)
      exact nodup_snoc _ _ hnd hnm
    · rw [if_neg hk] at hl
      exact h k vs hl

theorem Uninstall_reg_plugins (s : St) (org name version : String) :
    (Uninstall s org name version).1.reg.plugins =
      if (removeString ((lookupA s.reg.plugins (pkgKey org name)).getD [])
          version).length = 0
      then eraseA s.reg.plugins (pkgKey org name)
      else setA s.reg.plugins (pkgKey org name)
        (removeString ((lookupA s.reg.plugins (pkgKey org name)).getD [])
          version) := by
  unfold Uninstall
  cases hg : getManifest s org name version with
  | none =>
    dsimp only [saveRegistry]
    split <;> rfl
  | some m =>
    dsimp only
    by_cases hv : m.vmid = ""
    · rw [if_pos hv]
      dsimp only [saveRegistry]
      split <;> rfl
    · rw [if_neg hv]
      dsimp only [saveRegistry]
      split <;> rfl

theorem pluginsNodup_activate (s : St) (org name version : String)
    (h : pluginsNodup s) : pluginsNodup (Activate s org name version).1 := by
  cases hm : getManifest s org name version with
  | none =>
    unfold Activate
    rw [hm]
    exact h
  | some m =>
    rw [Activate_eq_of_manifest s org name version m hm]
    intro k vs
    dsimp only [saveRegistry]
    exact h k vs

theorem pluginsNodup_install (s : St) (m : Manifest) (bp : String)
    (h : pluginsNodup s) : pluginsNodup (Install s m bp).1 := by
  by_cases hf : m.org = "" ∨ m.name = "" ∨ m.version = ""
  · unfold Install
    rw [if_pos hf]
    exact h
  · by_cases hv : m.vmid = ""
    · unfold Install
      rw [if_neg hf, if_pos hv]
      exact h
    · rw [Install_eq s m bp hf hv]
      intro k vs
      dsimp only
      exact nodup_recordVersion s.reg _ _ h k vs

theorem pluginsNodup_link (s : St) (m : Manifest) (bp : String)
    (h : pluginsNodup s) : pluginsNodup (Link s m bp).1 := by
  by_cases hf : m.org = "" ∨ m.name = "" ∨ m.version = ""
  · unfold Link
    rw [if_pos hf]
    exact h
  · by_cases hv : m.vmid = ""
    · unfold Link
      rw [if_neg hf, if_pos hv]
      exact h
    · rw [Link_eq s m bp hf hv]
      intro k vs
      dsimp only
      exact nodup_recordVersion s.reg _ _ h k vs

theorem pluginsNodup_uninstall (s : St) (org name version : String)
    (h : pluginsNodup s) : pluginsNodup (Uninstall s org name version).1 := by
  intro k vs
  rw [Uninstall_reg_plugins]
  by_cases hlen : (removeString
      ((lookupA s.reg.plugins (pkgKey org name)).getD []) version).length = 0
  · rw [if_pos hlen, lookupA_eraseA]
    by_cases hk : pkgKey org name = k
    · rw [if_pos hk]
      intro h0
      cases h0
    · rw [if_neg hk]
      exact h k vs
  · rw [if_neg hlen, lookupA_setA]
    by_cases hk : pkgKey org name = k
    · rw [if_pos hk, Option.some.injEq]
      intro h0
      subst h0
      have hnd : ((lookupA s.reg.plugins (pkgKey org name)).getD []).Nodup := by
        cases hl0 : lookupA s.reg.plugins (pkgKey org name) with
        | none => simp
        | some vs0 => simpa using h _ vs0 hl0
      exact hnd.filter _
    · rw [if_neg hk]
      exact h k vs

/-- Claim C6: in every reachable registry state each package key's
version list is duplicate-free; re-installing an already-recorded
version leaves the plugins map unchanged; and uninstalling the last
remaining version of a package deletes the package key from the plugins
map. -/
theorem registry_version_list_invariants :
    (∀ s, Reach s → pluginsNodup s) ∧
    (∀ s (m : Manifest) bp,
      containsStr ((lookupA s.reg.plugins (pkgKey m.org m.name)).getD [])
        m.version = true →
      (Install s m bp).1.reg.plugins = s.reg.plugins) ∧
    (∀ s org name version,
      lookupA s.reg.plugins (pkgKey org name) = some [version] →
      lookupA (Uninstall s org name version).1.reg.plugins
        (pkgKey org name) = none) := by
  refine ⟨?_, ?_, ?_⟩
  · intro s hs
    induction hs with
    | init => intro k vs h0; cases h0
    | install m bp _ ih => exact pluginsNodup_install _ m bp ih
    | link m bp _ ih => exact pluginsNodup_link _ m bp ih
    | activate org name version _ ih =>
      exact pluginsNodup_activate _ org name version ih
    | uninstall org name version _ ih =>
      exact pluginsNodup_uninstall _ org name version ih
  · intro s m bp hc
    by_cases hf : m.org = "" ∨ m.name = "" ∨ m.version = ""
    · unfold Install
      rw [if_pos hf]
    · by_cases hv : m.vmid = ""
      · unfold Install
        rw [if_neg hf, if_pos hv]
      · rw [Install_eq s m bp hf hv]
        dsimp only
        unfold recordVersion
        dsimp only
        rw [if_pos hc]
  · intro s org name version hl
    rw [Uninstall_reg_plugins, hl]
    have hrm : removeString [version] version = [] := by
      simp [removeString]
    simp only [Option.getD_some, hrm, List.length_nil, if_pos rfl]
    simp [lookupA_eraseA]

theorem registry_version_list_invariants_witness :
    pluginsNodup oneInstallSt ∧
    containsStr ((lookupA oneInstallSt.reg.plugins (pkgKey "o" "n")).getD [])
      "v1" = true ∧
    (Install oneInstallSt ⟨"o", "n", "v1", "X", "b"⟩ "src1").1.reg.plugins =
      oneInstallSt.reg.plugins ∧
    lookupA oneInstallSt.reg.plugins (pkgKey "o" "n") = some ["v1"] ∧
    lookupA (Uninstall oneInstallSt "o" "n" "v1").1.reg.plugins
      (pkgKey "o" "n") = none :=
  ⟨registry_version_list_invariants.1 oneInstallSt
     (Reach.install ⟨"o", "n", "v1", "X", "b"⟩ "src1" Reach.init),
   by decide,
   registry_version_list_invariants.2.1 oneInstallSt
     ⟨"o", "n", "v1", "X", "b"⟩ "src1" (by decide),
   by decide,
   registry_version_list_invariants.2.2 oneInstallSt "o" "n" "v1"
     (by decide)⟩

/-! ### Claim C8 -/

/-- Claim C8: `Activate` is idempotent — when activating an installed
version succeeds, activating it again succeeds and leaves the state
(registry binding and `current/` symlink target included) exactly as
after the first call. -/
theorem activate_idempotent (s s1 : St) (org name version : String)
    (h : Activate s org name version = (s1, none)) :
    Activate s1 org name version = (s1, none) := by
  unfold Activate at h ⊢
  cases hm : getManifest s org name version with
  | none =>
    rw [hm] at h
    simp at h
  | some m =>
    rw [hm] at h
    rw [Prod.mk.injEq] at h
    obtain ⟨h1, -⟩ := h
    subst h1
    have hm2 : getManifest
        (saveRegistry { s with
          current := setA s.current m.vmid
            (CurTarget.pkgBinary org name version
              (if m.binary = "" then name else m.binary)),
          reg := { s.reg with
            active := setA s.reg.active m.vmid (refStr org name version) } })
        org name version = some m := hm
    rw [hm2]
    simp [saveRegistry, setA_setA_self]

theorem activate_idempotent_witness :
    Activate oneActivatedSt "o" "n" "v1" = (oneActivatedSt, none) :=
  activate_idempotent oneInstallSt oneActivatedSt "o" "n" "v1" (by decide)

end LuxConfig
